import Mathlib

/-
Verification development for the Narka-AI dark-web OSINT pipeline.

Each definition below is a shallow embedding of a function of the repository,
translated from the Python source:
  - threat scoring        : src/core/entities/threat_intel.py
  - threat-level analysis : src/core/services/threat_analyzer.py
  - entity extraction     : src/core/services/entity_extractor.py,
                            src/core/entities/extracted_entity.py
  - STIX hash typing      : src/adapters/export/stix_export.py
  - investigation record  : src/core/entities/investigation.py
  - orchestration         : src/core/services/investigation_service.py,
                            src/core/services/result_filter.py

Python floats are modelled as rationals; the constants involved (0.1, 0.25,
0.5, 0.75, 0.85, ...) and the arithmetic performed on them are exact in
binary floating point up to the additions in the score sum, so the rational
model is faithful on the inputs considered here.
-/

/-! ## Threat levels and IOCs (threat_intel.py) -/

/-- ThreatLevel enum from threat_intel.py. -/
inductive ThreatLevel where
  | unknown
  | low
  | medium
  | high
  | critical
deriving DecidableEq

/-- Level weights from ThreatIntelligence.calculate_threat_score. -/
def levelWeight : ThreatLevel → ℚ
  | .unknown => 1/10
  | .low => 1/4
  | .medium => 1/2
  | .high => 3/4
  | .critical => 1

/-- IOC record (the fields relevant to scoring and level analysis). -/
structure IOC where
  value : String
  confidence : ℚ
  threatLevel : ThreatLevel
  description : Option String
deriving DecidableEq

/-- ThreatIntelligence record (the fields relevant to scoring). -/
structure ThreatIntel where
  overallThreatLevel : ThreatLevel
  threatScore : ℚ
  iocs : List IOC
deriving DecidableEq

/-- The weighted sum over IOCs computed inside calculate_threat_score. -/
def totalWeight (iocs : List IOC) : ℚ :=
  (iocs.map (fun ioc => levelWeight ioc.threatLevel * ioc.confidence)).sum

/-- The threshold bucketing at the end of calculate_threat_score. -/
def bucketLevel (score : ℚ) : ThreatLevel :=
  if 80 ≤ score then .critical
  else if 60 ≤ score then .high
  else if 40 ≤ score then .medium
  else if 20 ≤ score then .low
  else .unknown

/-- ThreatIntelligence.calculate_threat_score: returns the updated record and
the returned score.  With no IOCs the method returns 0.0 early, leaving both
the stored score and the overall level untouched. -/
def calculateThreatScore (ti : ThreatIntel) : ThreatIntel × ℚ :=
  if ti.iocs = [] then (ti, 0)
  else
    let tw := totalWeight ti.iocs
    let maxPossible : ℚ := (ti.iocs.length : ℚ) * 1
    let score := min 100 (tw / max maxPossible 1 * 100)
    ({ ti with threatScore := score, overallThreatLevel := bucketLevel score }, score)

/-- Modelled from the spec: the aggregate-score formula
min(100, 100 * sum(level_weight * confidence) / max(1, N)) stated in section 4.5,
for comparison with the code-side calculateThreatScore. -/
def specThreatScore (iocs : List IOC) : ℚ :=
  min 100 (100 * totalWeight iocs / max 1 (iocs.length : ℚ))

/-! ## Threat-level analysis (threat_analyzer.py) -/

/-- HIGH_THREAT_KEYWORDS from ThreatAnalyzer. -/
def highThreatKeywords : List String :=
  ["ransomware", "malware", "exploit", "zero-day", "0day",
   "credentials", "leaked", "dump", "breach", "hacked",
   "carding", "fullz", "cvv", "bank", "fraud",
   "botnet", "ddos", "rat", "trojan", "keylogger"]

/-- MEDIUM_THREAT_KEYWORDS from ThreatAnalyzer. -/
def mediumThreatKeywords : List String :=
  ["database", "login", "password", "account", "access",
   "vpn", "rdp", "ssh", "shell", "server",
   "tutorial", "guide", "method", "tool", "software"]

/-- Prefix test on character lists (pat matches at the head of txt). -/
def startsAt : List Char → List Char → Bool
  | [], _ => true
  | _ :: _, [] => false
  | p :: ps, c :: cs => p == c && startsAt ps cs

/-- Python substring containment (the expression pat in txt) on char lists. -/
def subHit (pat : List Char) : List Char → Bool
  | [] => pat.isEmpty
  | c :: cs => startsAt pat (c :: cs) || subHit pat cs

/-- Python str.lower on the character list of a string (the inputs here are
ASCII, where per-character lowering agrees with str.lower). -/
def lowerChars (s : String) : List Char :=
  s.data.map Char.toLower

/-- Membership test over a keyword set against the lowercased description,
as in the level-setting loop of ThreatAnalyzer._analyze_threat_level. -/
def hitsKeyword (description : Option String) (kws : List String) : Bool :=
  kws.any (fun kw => subHit kw.data (lowerChars (description.getD "")))

/-- The final loop of ThreatAnalyzer._analyze_threat_level: assign each IOC
a threat level from its description. -/
def analyzeThreatLevels (iocs : List IOC) : List IOC :=
  iocs.map (fun ioc =>
    if hitsKeyword ioc.description highThreatKeywords then
      { ioc with threatLevel := .high }
    else if hitsKeyword ioc.description mediumThreatKeywords then
      { ioc with threatLevel := .medium }
    else
      { ioc with threatLevel := .low })

/-! ## Theorems for claims C3 and C10 -/

theorem totalWeight_nonneg (iocs : List IOC)
    (hconf : ∀ ioc ∈ iocs, 0 ≤ ioc.confidence ∧ ioc.confidence ≤ 1) :
    0 ≤ totalWeight iocs := by
  apply List.sum_nonneg
  intro x hx
  simp only [List.mem_map] at hx
  obtain ⟨ioc, hioc, rfl⟩ := hx
  have h0 : 0 ≤ ioc.confidence := (hconf ioc hioc).1
  have hw : 0 ≤ levelWeight ioc.threatLevel := by
    cases ioc.threatLevel <;> norm_num [levelWeight]
  exact mul_nonneg hw h0

/-- C3: the aggregate threat score equals the spec formula
min(100, 100 * sum(level_weight * confidence) / max(1, N)), lies in [0, 100],
is bucketed into the overall level by the thresholds 80/60/40/20, and with
zero IOCs the score is 0 and the overall level stays UNKNOWN. -/
theorem c3_threat_score (ti : ThreatIntel)
    (hconf : ∀ ioc ∈ ti.iocs, 0 ≤ ioc.confidence ∧ ioc.confidence ≤ 1)
    (hinit : ti.overallThreatLevel = ThreatLevel.unknown) :
    (calculateThreatScore ti).2 = specThreatScore ti.iocs ∧
    (0 ≤ (calculateThreatScore ti).2 ∧ (calculateThreatScore ti).2 ≤ 100) ∧
    (ti.iocs = [] → (calculateThreatScore ti).2 = 0 ∧
      (calculateThreatScore ti).1.overallThreatLevel = ThreatLevel.unknown) ∧
    (80 ≤ (calculateThreatScore ti).2 →
      (calculateThreatScore ti).1.overallThreatLevel = ThreatLevel.critical) ∧
    (60 ≤ (calculateThreatScore ti).2 ∧ (calculateThreatScore ti).2 < 80 →
      (calculateThreatScore ti).1.overallThreatLevel = ThreatLevel.high) ∧
    (40 ≤ (calculateThreatScore ti).2 ∧ (calculateThreatScore ti).2 < 60 →
      (calculateThreatScore ti).1.overallThreatLevel = ThreatLevel.medium) ∧
    (20 ≤ (calculateThreatScore ti).2 ∧ (calculateThreatScore ti).2 < 40 →
      (calculateThreatScore ti).1.overallThreatLevel = ThreatLevel.low) ∧
    ((calculateThreatScore ti).2 < 20 →
      (calculateThreatScore ti).1.overallThreatLevel = ThreatLevel.unknown) := by
  have htw : 0 ≤ totalWeight ti.iocs := totalWeight_nonneg ti.iocs hconf
  by_cases hempty : ti.iocs = []
  · have hz : totalWeight ti.iocs = 0 := by simp [totalWeight, hempty]
    have hcalc : calculateThreatScore ti = (ti, 0) := by
      simp [calculateThreatScore, hempty]
    have hspec : specThreatScore ti.iocs = 0 := by
      rw [hempty] at hz ⊢
      simp [specThreatScore, hz]
    rw [hcalc]
    refine ⟨hspec.symm, ⟨le_refl 0, by norm_num⟩, fun _ => ⟨rfl, hinit⟩,
      ?_, ?_, ?_, ?_, fun _ => hinit⟩
    · intro h; norm_num at h
    · rintro ⟨h1, _⟩; norm_num at h1
    · rintro ⟨h1, _⟩; norm_num at h1
    · rintro ⟨h1, _⟩; norm_num at h1
  · have hMpos : (0 : ℚ) < max ((ti.iocs.length : ℚ) * 1) 1 :=
      lt_of_lt_of_le one_pos (le_max_right _ _)
    have hform : totalWeight ti.iocs / max ((ti.iocs.length : ℚ) * 1) 1 * 100 =
        100 * totalWeight ti.iocs / max 1 ((ti.iocs.length : ℚ)) := by
      rw [max_comm, mul_one]
      ring
    have hcalc : calculateThreatScore ti =
        ({ ti with
            threatScore :=
              min 100 (totalWeight ti.iocs / max ((ti.iocs.length : ℚ) * 1) 1 * 100),
            overallThreatLevel :=
              bucketLevel
                (min 100 (totalWeight ti.iocs / max ((ti.iocs.length : ℚ) * 1) 1 * 100)) },
          min 100 (totalWeight ti.iocs / max ((ti.iocs.length : ℚ) * 1) 1 * 100)) := by
      simp [calculateThreatScore, hempty]
    have hspec : specThreatScore ti.iocs =
        min 100 (totalWeight ti.iocs / max ((ti.iocs.length : ℚ) * 1) 1 * 100) := by
      simp only [specThreatScore]
      rw [← hform]
    rw [hcalc]
    dsimp only
    refine ⟨hspec.symm, ⟨?_, min_le_left _ _⟩, fun h => absurd h hempty,
      ?_, ?_, ?_, ?_, ?_⟩
    · apply le_min (by norm_num)
      exact mul_nonneg (div_nonneg htw (le_of_lt hMpos)) (by norm_num)
    · intro h; simp only [bucketLevel]; rw [if_pos h]
    · rintro ⟨h1, h2⟩
      simp only [bucketLevel]
      rw [if_neg (by linarith), if_pos h1]
    · rintro ⟨h1, h2⟩
      simp only [bucketLevel]
      rw [if_neg (by linarith), if_neg (by linarith), if_pos h1]
    · rintro ⟨h1, h2⟩
      simp only [bucketLevel]
      rw [if_neg (by linarith), if_neg (by linarith), if_neg (by linarith), if_pos h1]
    · intro h
      simp only [bucketLevel]
      rw [if_neg (by linarith), if_neg (by linarith), if_neg (by linarith),
        if_neg (by linarith)]

/-- Concrete two-IOC record used to witness C3. -/
def c3ti : ThreatIntel :=
  ThreatIntel.mk ThreatLevel.unknown 0
    [IOC.mk "1.2.3.4" 1 ThreatLevel.high none,
     IOC.mk "evil.onion" 0 ThreatLevel.low none]

/-- Witness for C3 at a concrete two-IOC intelligence record. -/
theorem c3_threat_score_witness :
    (∀ ioc ∈ c3ti.iocs, 0 ≤ ioc.confidence ∧ ioc.confidence ≤ 1) ∧
    c3ti.overallThreatLevel = ThreatLevel.unknown ∧
    ((calculateThreatScore c3ti).2 = specThreatScore c3ti.iocs ∧
     (0 ≤ (calculateThreatScore c3ti).2 ∧ (calculateThreatScore c3ti).2 ≤ 100) ∧
     (c3ti.iocs = [] → (calculateThreatScore c3ti).2 = 0 ∧
       (calculateThreatScore c3ti).1.overallThreatLevel = ThreatLevel.unknown) ∧
     (80 ≤ (calculateThreatScore c3ti).2 →
       (calculateThreatScore c3ti).1.overallThreatLevel = ThreatLevel.critical) ∧
     (60 ≤ (calculateThreatScore c3ti).2 ∧ (calculateThreatScore c3ti).2 < 80 →
       (calculateThreatScore c3ti).1.overallThreatLevel = ThreatLevel.high) ∧
     (40 ≤ (calculateThreatScore c3ti).2 ∧ (calculateThreatScore c3ti).2 < 60 →
       (calculateThreatScore c3ti).1.overallThreatLevel = ThreatLevel.medium) ∧
     (20 ≤ (calculateThreatScore c3ti).2 ∧ (calculateThreatScore c3ti).2 < 40 →
       (calculateThreatScore c3ti).1.overallThreatLevel = ThreatLevel.low) ∧
     ((calculateThreatScore c3ti).2 < 20 →
       (calculateThreatScore c3ti).1.overallThreatLevel = ThreatLevel.unknown)) :=
  ⟨by decide, by decide, c3_threat_score c3ti (by decide) (by decide)⟩

/-- C10: after ThreatAnalyzer._analyze_threat_level runs, every IOC carries
level HIGH, MEDIUM or LOW — never UNKNOWN or CRITICAL — with HIGH exactly when
the description contains a high-threat keyword, MEDIUM exactly when it
contains a medium-threat keyword but no high-threat keyword, LOW otherwise;
hence every per-IOC level weight is at most 0.75. -/
theorem c10_ioc_levels (iocs : List IOC) (ioc' : IOC)
    (hmem : ioc' ∈ analyzeThreatLevels iocs) :
    (ioc'.threatLevel ≠ ThreatLevel.unknown ∧
     ioc'.threatLevel ≠ ThreatLevel.critical) ∧
    (ioc'.threatLevel = ThreatLevel.high ↔
      hitsKeyword ioc'.description highThreatKeywords = true) ∧
    (ioc'.threatLevel = ThreatLevel.medium ↔
      (hitsKeyword ioc'.description highThreatKeywords = false ∧
       hitsKeyword ioc'.description mediumThreatKeywords = true)) ∧
    (ioc'.threatLevel = ThreatLevel.low ↔
      (hitsKeyword ioc'.description highThreatKeywords = false ∧
       hitsKeyword ioc'.description mediumThreatKeywords = false)) ∧
    levelWeight ioc'.threatLevel ≤ 3/4 := by
  simp only [analyzeThreatLevels, List.mem_map] at hmem
  obtain ⟨ioc, _, rfl⟩ := hmem
  by_cases hh : hitsKeyword ioc.description highThreatKeywords = true
  · simp only [if_pos hh]
    refine ⟨⟨by simp, by simp⟩, ?_, ?_, ?_, by norm_num [levelWeight]⟩
    · simpa using hh
    · simp [hh]
    · simp [hh]
  · by_cases hm : hitsKeyword ioc.description mediumThreatKeywords = true
    · simp only [if_neg hh, if_pos hm]
      refine ⟨⟨by simp, by simp⟩, ?_, ?_, ?_, by norm_num [levelWeight]⟩
      · simp [Bool.eq_false_iff.mpr hh]
      · simpa using ⟨Bool.not_eq_true _ |>.mp hh, hm⟩
      · simp [hm]
    · simp only [if_neg hh, if_neg hm]
      refine ⟨⟨by simp, by simp⟩, ?_, ?_, ?_, by norm_num [levelWeight]⟩
      · simp [Bool.eq_false_iff.mpr hh]
      · simp [Bool.eq_false_iff.mpr hm]
      · simpa using ⟨Bool.not_eq_true _ |>.mp hh, Bool.not_eq_true _ |>.mp hm⟩

/-- Concrete IOC list used to witness C10. -/
def c10iocs : List IOC :=
  [IOC.mk "x.onion" 1 ThreatLevel.unknown (some "ransomware dump site")]

/-- Witness for C10: a ransomware-flavoured IOC is assigned HIGH. -/
theorem c10_ioc_levels_witness :
    (IOC.mk "x.onion" 1 ThreatLevel.high (some "ransomware dump site") ∈
      analyzeThreatLevels c10iocs) ∧
    ((IOC.mk "x.onion" 1 ThreatLevel.high
        (some "ransomware dump site")).threatLevel ≠ ThreatLevel.unknown ∧
     (IOC.mk "x.onion" 1 ThreatLevel.high
        (some "ransomware dump site")).threatLevel ≠ ThreatLevel.critical) :=
  ⟨by decide, (c10_ioc_levels c10iocs _ (by decide)).1⟩

/-! ## Investigation record and status updates (investigation.py) -/

/-- InvestigationStatus enum. -/
inductive InvStatus where
  | pending
  | refiningQuery
  | searching
  | filtering
  | scraping
  | extracting
  | analyzing
  | completed
  | failed
  | cancelled
deriving DecidableEq

/-- The .value string of each status member. -/
def statusValue : InvStatus → String
  | .pending => "pending"
  | .refiningQuery => "refining_query"
  | .searching => "searching"
  | .filtering => "filtering"
  | .scraping => "scraping"
  | .extracting => "extracting"
  | .analyzing => "analyzing"
  | .completed => "completed"
  | .failed => "failed"
  | .cancelled => "cancelled"

/-- One entry of Investigation.errors, as recorded by Investigation.add_error. -/
structure ErrEntry where
  stage : String
  error : String
deriving DecidableEq

/-- Investigation record (the fields the verified claims touch); timestamps
are abstract ticks. -/
structure Investigation where
  status : InvStatus
  updatedAt : Nat
  completedAt : Option Nat
  refinedQuery : Option String
  searchResultsCount : Nat
  filteredResultsCount : Nat
  scrapedCount : Nat
  summary : Option String
  threatScore : Option ℚ
  errors : List ErrEntry
deriving DecidableEq

/-- A freshly constructed Investigation (dataclass defaults). -/
def newInvestigation : Investigation :=
  Investigation.mk InvStatus.pending 0 none none 0 0 0 none none []

/-- Investigation.update_status: sets status and updated_at, and sets
completed_at only when the new status is COMPLETED or FAILED. -/
def updateStatus (inv : Investigation) (s : InvStatus) (now : Nat) : Investigation :=
  { inv with
    status := s
    updatedAt := now
    completedAt :=
      if s = InvStatus.completed ∨ s = InvStatus.failed then some now
      else inv.completedAt }

/-- Investigation.add_error: appends a stage/message entry. -/
def addError (inv : Investigation) (stage err : String) : Investigation :=
  { inv with errors := inv.errors ++ [ErrEntry.mk stage err] }

/-- Negation of Investigation.is_active: status is one of the three terminal
members COMPLETED, FAILED, CANCELLED. -/
def isTerminalStatus (s : InvStatus) : Bool :=
  s == InvStatus.completed || s == InvStatus.failed || s == InvStatus.cancelled

/-- A sequence of update_status calls applied in order. -/
def runUpdates (inv : Investigation) (ups : List (InvStatus × Nat)) : Investigation :=
  ups.foldl (fun i u => updateStatus i u.1 u.2) inv

theorem runUpdates_completedAt (ups : List (InvStatus × Nat)) (inv : Investigation) :
    ((runUpdates inv ups).completedAt ≠ none) ↔
    (inv.completedAt ≠ none ∨
      ∃ u ∈ ups, u.1 = InvStatus.completed ∨ u.1 = InvStatus.failed) := by
  induction ups generalizing inv with
  | nil => simp [runUpdates]
  | cons u rest ih =>
    have hstep : runUpdates inv (u :: rest) = runUpdates (updateStatus inv u.1 u.2) rest := by
      simp [runUpdates]
    rw [hstep, ih]
    by_cases hu : u.1 = InvStatus.completed ∨ u.1 = InvStatus.failed
    · simp [updateStatus, hu]
    · simp only [updateStatus, if_neg hu]
      constructor
      · rintro (h | h)
        · exact Or.inl h
        · exact Or.inr ⟨_, List.mem_cons_of_mem _ h.choose_spec.1, h.choose_spec.2⟩
          
      · rintro (h | ⟨v, hv, hvp⟩)
        · exact Or.inl h
        · rcases List.mem_cons.mp hv with rfl | hv'
          · exact absurd hvp hu
          · exact Or.inr ⟨v, hv', hvp⟩

/-- C8 counterexample: update_status(CANCELLED) on a fresh investigation
yields a terminal status with completed_at still null, refuting the claimed
equivalence between terminal status and non-null completed_at. -/
theorem c8_counterexample :
    (updateStatus newInvestigation InvStatus.cancelled 5).status = InvStatus.cancelled ∧
    isTerminalStatus (updateStatus newInvestigation InvStatus.cancelled 5).status = true ∧
    (updateStatus newInvestigation InvStatus.cancelled 5).completedAt = none ∧
    ¬ ((updateStatus newInvestigation InvStatus.cancelled 5).completedAt ≠ none ↔
       isTerminalStatus (updateStatus newInvestigation InvStatus.cancelled 5).status = true) := by
  decide

/-- C8 amended: starting from a fresh investigation, completed_at is non-null
exactly when some prior update was to COMPLETED or FAILED (a CANCELLED update
never sets it), and every update_status call sets updated_at to the call time
and status to its argument. -/
theorem c8_completed_at_amended (ups : List (InvStatus × Nat)) (inv : Investigation)
    (h0 : inv.completedAt = none) :
    ((runUpdates inv ups).completedAt ≠ none ↔
      ∃ u ∈ ups, u.1 = InvStatus.completed ∨ u.1 = InvStatus.failed) ∧
    (∀ s now, (updateStatus (runUpdates inv ups) s now).updatedAt = now ∧
      (updateStatus (runUpdates inv ups) s now).status = s) ∧
    (∀ now, (updateStatus (runUpdates inv ups) InvStatus.cancelled now).completedAt =
      (runUpdates inv ups).completedAt) := by
  refine ⟨?_, fun s now => ⟨rfl, rfl⟩, fun now => ?_⟩
  · rw [runUpdates_completedAt]
    simp [h0]
  · simp [updateStatus]

/-- Witness for C8 amended at a concrete update sequence ending in COMPLETED. -/
theorem c8_completed_at_amended_witness :
    newInvestigation.completedAt = none ∧
    (((runUpdates newInvestigation
        [(InvStatus.searching, 1), (InvStatus.completed, 2)]).completedAt ≠ none ↔
      ∃ u ∈ [(InvStatus.searching, 1), (InvStatus.completed, 2)],
        u.1 = InvStatus.completed ∨ u.1 = InvStatus.failed) ∧
    (∀ s now, (updateStatus (runUpdates newInvestigation
        [(InvStatus.searching, 1), (InvStatus.completed, 2)]) s now).updatedAt = now ∧
      (updateStatus (runUpdates newInvestigation
        [(InvStatus.searching, 1), (InvStatus.completed, 2)]) s now).status = s) ∧
    (∀ now, (updateStatus (runUpdates newInvestigation
        [(InvStatus.searching, 1), (InvStatus.completed, 2)])
        InvStatus.cancelled now).completedAt =
      (runUpdates newInvestigation
        [(InvStatus.searching, 1), (InvStatus.completed, 2)]).completedAt)) :=
  ⟨by decide, c8_completed_at_amended _ newInvestigation (by decide)⟩

/-! ## Multi-engine search merge (investigation_service._search_all_engines) -/

/-- One search-result dict ({"title": ..., "link": ...}). -/
structure SR where
  link : String
  title : String
deriving DecidableEq

/-- Outcome of one engine future, in task completion order: a successful
SearchEngineResult contributes its result list; a raised exception or an
is_success = False result contributes nothing. -/
inductive EngineOutcome where
  | ok (results : List SR)
  | fail
deriving DecidableEq

/-- The all_results buffer: successful result lists concatenated in task
completion order. -/
def collectResults (outcomes : List EngineOutcome) : List SR :=
  outcomes.foldl
    (fun acc o =>
      match o with
      | .ok rs => acc ++ rs
      | .fail => acc) []

/-- The dedup loop of _search_all_engines: keep a result iff its link is
non-empty and not yet seen. -/
def dedupByLink : List SR → List String → List SR
  | [], _ => []
  | r :: rest, seen =>
    if r.link ≠ "" ∧ r.link ∉ seen then r :: dedupByLink rest (r.link :: seen)
    else dedupByLink rest seen

/-- _search_all_engines: merge in completion order, then deduplicate by raw
link (no URL normalization). -/
def mergeResults (outcomes : List EngineOutcome) : List SR :=
  dedupByLink (collectResults outcomes) []

theorem dedupByLink_sound (l : List SR) (seen : List String) :
    (∀ r' ∈ dedupByLink l seen, r' ∈ l ∧ r'.link ≠ "" ∧ r'.link ∉ seen ∧
      l.find? (fun x => x.link == r'.link) = some r') ∧
    ((dedupByLink l seen).map SR.link).Nodup := by
  induction l generalizing seen with
  | nil => simp [dedupByLink]
  | cons r rest ih =>
    by_cases hk : r.link ≠ "" ∧ r.link ∉ seen
    · have heq : dedupByLink (r :: rest) seen =
          r :: dedupByLink rest (r.link :: seen) := by
        simp [dedupByLink, hk]
      rw [heq]
      obtain ⟨iha, ihb⟩ := ih (r.link :: seen)
      constructor
      · intro r' hr'
        rcases List.mem_cons.mp hr' with rfl | hr'
        · refine ⟨List.mem_cons_self _ _, hk.1, hk.2, ?_⟩
          rw [List.find?_cons_of_pos _ (by simp)]
        · obtain ⟨hmem, hne, hnotin, hfind⟩ := iha r' hr'
          have hdiff : r.link ≠ r'.link := by
            intro hcontra
            exact hnotin (hcontra ▸ List.mem_cons_self _ _)
          refine ⟨List.mem_cons_of_mem _ hmem, hne, fun hs => hnotin (List.mem_cons_of_mem _ hs), ?_⟩
          rw [List.find?_cons_of_neg _ (by simp [hdiff]), hfind]
      · simp only [List.map_cons, List.nodup_cons]
        refine ⟨?_, ihb⟩
        intro hcontra
        obtain ⟨r', hr', hlink⟩ := List.mem_map.mp hcontra
        exact (iha r' hr').2.2.1 (hlink ▸ List.mem_cons_self _ _)
    · have heq : dedupByLink (r :: rest) seen = dedupByLink rest seen := by
        simp only [dedupByLink, if_neg hk]
      rw [heq]
      obtain ⟨iha, ihb⟩ := ih seen
      refine ⟨?_, ihb⟩
      intro r' hr'
      obtain ⟨hmem, hne, hnotin, hfind⟩ := iha r' hr'
      have hdiff : r.link ≠ r'.link := by
        rcases not_and_or.mp hk with h | h
        · have : r.link = "" := not_not.mp h
          intro hcontra
          exact hne (hcontra.symm.trans this)
        · have : r.link ∈ seen := not_not.mp h
          intro hcontra
          exact hnotin (hcontra ▸ this)
      refine ⟨List.mem_cons_of_mem _ hmem, hne, hnotin, ?_⟩
      rw [List.find?_cons_of_neg _ (by simp [hdiff]), hfind]

theorem dedupByLink_covers (l : List SR) (seen : List String) :
    ∀ r ∈ l, r.link ≠ "" → r.link ∉ seen →
      ∃ r' ∈ dedupByLink l seen, r'.link = r.link := by
  induction l generalizing seen with
  | nil => simp
  | cons a rest ih =>
    intro r hr hne hnotin
    by_cases hk : a.link ≠ "" ∧ a.link ∉ seen
    · have heq : dedupByLink (a :: rest) seen =
          a :: dedupByLink rest (a.link :: seen) := by
        simp [dedupByLink, hk]
      rw [heq]
      rcases List.mem_cons.mp hr with rfl | hr'
      · exact ⟨r, List.mem_cons_self _ _, rfl⟩
      · by_cases hsame : r.link = a.link
        · exact ⟨a, List.mem_cons_self _ _, hsame.symm⟩
        · have hnotin' : r.link ∉ a.link :: seen := by
            intro hmem
            rcases List.mem_cons.mp hmem with h | h
            · exact hsame h
            · exact hnotin h
          obtain ⟨r', hr'', hl⟩ := ih (a.link :: seen) r hr' hne hnotin'
          exact ⟨r', List.mem_cons_of_mem _ hr'', hl⟩
    · have heq : dedupByLink (a :: rest) seen = dedupByLink rest seen := by
        simp only [dedupByLink, if_neg hk]
      rw [heq]
      rcases List.mem_cons.mp hr with rfl | hr'
      · exact absurd ⟨hne, hnotin⟩ hk
      · exact ih seen r hr' hne hnotin

/-- C1 counterexample: two providers report the same URL with different
titles; swapping the task completion order (a permutation of the same set of
outcomes) changes which entry the merged list keeps, so the merge is not
independent of completion order. -/
theorem c1_counterexample :
    mergeResults [EngineOutcome.ok [SR.mk "http://x.onion/a" "title-one"],
                  EngineOutcome.ok [SR.mk "http://x.onion/a" "title-two"]] =
      [SR.mk "http://x.onion/a" "title-one"] ∧
    mergeResults [EngineOutcome.ok [SR.mk "http://x.onion/a" "title-two"],
                  EngineOutcome.ok [SR.mk "http://x.onion/a" "title-one"]] =
      [SR.mk "http://x.onion/a" "title-two"] ∧
    List.Perm
      [EngineOutcome.ok [SR.mk "http://x.onion/a" "title-one"],
       EngineOutcome.ok [SR.mk "http://x.onion/a" "title-two"]]
      [EngineOutcome.ok [SR.mk "http://x.onion/a" "title-two"],
       EngineOutcome.ok [SR.mk "http://x.onion/a" "title-one"]] ∧
    mergeResults [EngineOutcome.ok [SR.mk "http://x.onion/a" "title-one"],
                  EngineOutcome.ok [SR.mk "http://x.onion/a" "title-two"]] ≠
      mergeResults [EngineOutcome.ok [SR.mk "http://x.onion/a" "title-two"],
                    EngineOutcome.ok [SR.mk "http://x.onion/a" "title-one"]] := by
  decide

/-- C1 amended: the merged list contains each non-empty raw link exactly once,
keeping the entry that comes first in task completion order (results with an
empty link are dropped, and no URL normalization is applied; which entry
survives for a duplicated URL therefore depends on completion order). -/
theorem c1_merge_amended (outcomes : List EngineOutcome) :
    ((mergeResults outcomes).map SR.link).Nodup ∧
    (∀ r' ∈ mergeResults outcomes, r' ∈ collectResults outcomes ∧ r'.link ≠ "" ∧
      (collectResults outcomes).find? (fun x => x.link == r'.link) = some r') ∧
    (∀ r ∈ collectResults outcomes, r.link ≠ "" →
      ∃ r' ∈ mergeResults outcomes, r'.link = r.link) := by
  obtain ⟨ha, hb⟩ := dedupByLink_sound (collectResults outcomes) []
  refine ⟨hb, ?_, ?_⟩
  · intro r' hr'
    obtain ⟨hmem, hne, _, hfind⟩ := ha r' hr'
    exact ⟨hmem, hne, hfind⟩
  · intro r hr hne
    exact dedupByLink_covers (collectResults outcomes) [] r hr hne (by simp)

/-- Outcome list used to witness C1 amended. -/
def c1outcomes : List EngineOutcome :=
  [EngineOutcome.ok [SR.mk "http://x.onion/a" "title-one", SR.mk "" "no-link"],
   EngineOutcome.ok [SR.mk "http://x.onion/a" "title-two",
                     SR.mk "http://y.onion/b" "other"]]

/-- Witness for C1 amended on a concrete duplicated-URL outcome set. -/
theorem c1_merge_amended_witness :
    ((mergeResults c1outcomes).map SR.link).Nodup ∧
    (SR.mk "http://x.onion/a" "title-one" ∈ mergeResults c1outcomes) ∧
    (SR.mk "http://x.onion/a" "title-one" ∈ collectResults c1outcomes ∧
      (SR.mk "http://x.onion/a" "title-one").link ≠ "" ∧
      (collectResults c1outcomes).find?
        (fun x => x.link == (SR.mk "http://x.onion/a" "title-one").link) =
        some (SR.mk "http://x.onion/a" "title-one")) ∧
    (SR.mk "http://x.onion/a" "title-two" ∈ collectResults c1outcomes) ∧
    (∃ r' ∈ mergeResults c1outcomes,
      r'.link = (SR.mk "http://x.onion/a" "title-two").link) :=
  ⟨(c1_merge_amended c1outcomes).1, by decide,
   (c1_merge_amended c1outcomes).2.1 _ (by decide), by decide,
   (c1_merge_amended c1outcomes).2.2 _ (by decide) (by decide)⟩

/-! ## Character classes (entity_extractor.py / extracted_entity.py regexes) -/

/-- ASCII digit. -/
def isDigitCh (c : Char) : Bool := '0' ≤ c && c ≤ '9'

/-- ASCII lowercase letter. -/
def isLowerCh (c : Char) : Bool := 'a' ≤ c && c ≤ 'z'

/-- ASCII uppercase letter. -/
def isUpperCh (c : Char) : Bool := 'A' ≤ c && c ≤ 'Z'

/-- ASCII letter or digit. -/
def isAlnumCh (c : Char) : Bool := isDigitCh c || isLowerCh c || isUpperCh c

/-- Regex word character (the texts modelled here are ASCII). -/
def isWordCh (c : Char) : Bool := isAlnumCh c || c == '_'

/-- The base58 class [a-km-zA-HJ-NP-Z1-9] (and the identical set written
[1-9A-HJ-NP-Za-km-z] in the Monero/Dash patterns). -/
def isBase58 (c : Char) : Bool :=
  ('a' ≤ c && c ≤ 'k') || ('m' ≤ c && c ≤ 'z') ||
  ('A' ≤ c && c ≤ 'H') || ('J' ≤ c && c ≤ 'N') ||
  ('P' ≤ c && c ≤ 'Z') || ('1' ≤ c && c ≤ '9')

/-- The hex class [a-fA-F0-9]. -/
def isHexCh (c : Char) : Bool :=
  isDigitCh c || ('a' ≤ c && c ≤ 'f') || ('A' ≤ c && c ≤ 'F')

/-- The class [a-z0-9] without IGNORECASE. -/
def isLowerDigCh (c : Char) : Bool := isDigitCh c || isLowerCh c

/-! ## Anchored wallet-shape checks (CryptoWalletEntity._detect_currency) -/

/-- re.match of the anchored Bitcoin legacy pattern [13][base58]{25,34}. -/
def btcLegacyShape : List Char → Bool
  | [] => false
  | c :: rest =>
    (c == '1' || c == '3') && rest.all isBase58 &&
    decide (25 ≤ rest.length) && decide (rest.length ≤ 34)

/-- re.match of the anchored SegWit pattern bc1[a-z0-9]{39,59} with
IGNORECASE (so letters of either case). -/
def btcSegwitShape : List Char → Bool
  | b :: c :: o :: rest =>
    (b == 'b' || b == 'B') && (c == 'c' || c == 'C') && o == '1' &&
    rest.all isAlnumCh && decide (39 ≤ rest.length) && decide (rest.length ≤ 59)
  | _ => false

/-- re.match of the anchored Ethereum pattern 0x[a-fA-F0-9]{40}. -/
def ethShape : List Char → Bool
  | z :: x :: rest =>
    z == '0' && x == 'x' && rest.all isHexCh && rest.length == 40
  | _ => false

/-- re.match of the anchored Monero pattern 4[0-9AB][1-9A-HJ-NP-Za-km-z]{93}. -/
def xmrShape : List Char → Bool
  | f :: s :: rest =>
    f == '4' && (isDigitCh s || s == 'A' || s == 'B') &&
    rest.all isBase58 && rest.length == 93
  | _ => false

/-- re.match of the anchored Litecoin pattern [LM3][a-km-zA-HJ-NP-Z1-9]{26,33}. -/
def ltcShape : List Char → Bool
  | [] => false
  | c :: rest =>
    (c == 'L' || c == 'M' || c == '3') && rest.all isBase58 &&
    decide (26 ≤ rest.length) && decide (rest.length ≤ 33)

/-- Body of the Bitcoin Cash pattern: [qp][a-z0-9]{41}. -/
def bchBody : List Char → Bool
  | [] => false
  | c :: rest =>
    (c == 'q' || c == 'p') && rest.all isLowerDigCh && rest.length == 41

/-- re.match of the anchored Bitcoin Cash pattern (bitcoincash:)?[qp][a-z0-9]{41}. -/
def bchShape (v : List Char) : Bool :=
  (startsAt "bitcoincash:".data v && bchBody (v.drop 12)) || bchBody v

/-- re.match of the anchored Dash pattern X[1-9A-HJ-NP-Za-km-z]{33}. -/
def dashShape : List Char → Bool
  | [] => false
  | c :: rest => c == 'X' && rest.all isBase58 && rest.length == 33

/-- CryptoWalletEntity._detect_currency: first matching family in source
order, "UNKNOWN" when no family matches. -/
def detectCurrency (v : List Char) : String :=
  if btcLegacyShape v then "BTC"
  else if btcSegwitShape v then "BTC"
  else if ethShape v then "ETH"
  else if xmrShape v then "XMR"
  else if ltcShape v then "LTC"
  else if bchShape v then "BCH"
  else if dashShape v then "DASH"
  else "UNKNOWN"

/-! ## finditer model for the bounded single-run patterns

Every crypto and hash pattern in EntityExtractor.PATTERNS used below has the
form \b H1 ... Hk C{lo,hi} \b where each Hi and C is a one-character class
contained in \w.  For such a pattern a Python match starting at position i
exists iff the position is a word boundary, the head classes match, and the
maximal following run m of C-characters satisfies lo ≤ m ≤ hi and ends at a
word boundary: a greedy backtrack to any shorter stop would sit directly in
front of a C-character, which is a word character, so the trailing \b can
only hold at the end of the maximal run, and a run longer than hi can never
be shortened onto a boundary for the same reason.  finditer scans start
positions left to right and resumes scanning right after each match. -/

structure RunPattern where
  heads : List (Char → Bool)
  run : Char → Bool
  lo : Nat
  hi : Nat

/-- Match the fixed head classes, returning the remaining text. -/
def matchHeads : List (Char → Bool) → List Char → Option (List Char)
  | [], rest => some rest
  | _ :: _, [] => none
  | p :: ps, c :: cs => if p c then matchHeads ps cs else none

/-- Attempted match of pat at position i of text (None, or the match length). -/
def matchAt (pat : RunPattern) (text : List Char) (i : Nat) : Option Nat :=
  match matchHeads pat.heads (text.drop i) with
  | none => none
  | some rest =>
    let m := (rest.takeWhile pat.run).length
    let after := rest.drop m
    if (i = 0 ∨ isWordCh (text.getD (i - 1) ' ') = false) ∧
        pat.lo ≤ m ∧ m ≤ pat.hi ∧
        (after = [] ∨ isWordCh (after.headD ' ') = false) then
      some (pat.heads.length + m)
    else none

/-- Left-to-right scan from position i with explicit fuel. -/
def scanFrom (pat : RunPattern) (text : List Char) : Nat → Nat → List (Nat × Nat)
  | 0, _ => []
  | fuel + 1, i =>
    if i < text.length then
      match matchAt pat text i with
      | some len => (i, len) :: scanFrom pat text fuel (i + len)
      | none => scanFrom pat text fuel (i + 1)
    else []

/-- All (position, length) matches of pat in text, in scan order. -/
def finditer (pat : RunPattern) (text : List Char) : List (Nat × Nat) :=
  scanFrom pat text (text.length + 1) 0

/-- The slice text[i : i+len] as a char list. -/
def sliceAt (text : List Char) (i len : Nat) : List Char :=
  (text.drop i).take len

/-- PATTERNS['btc_legacy']. -/
def btcLegacyPat : RunPattern :=
  RunPattern.mk [fun c => c == '1' || c == '3'] isBase58 25 34

/-- PATTERNS['btc_segwit'] (IGNORECASE: bc1 in either case, [a-z0-9] both cases). -/
def btcSegwitPat : RunPattern :=
  RunPattern.mk
    [fun c => c == 'b' || c == 'B', fun c => c == 'c' || c == 'C', fun c => c == '1']
    isAlnumCh 39 59

/-- PATTERNS['eth']. -/
def ethPat : RunPattern :=
  RunPattern.mk [fun c => c == '0', fun c => c == 'x'] isHexCh 40 40

/-- PATTERNS['xmr']. -/
def xmrPat : RunPattern :=
  RunPattern.mk [fun c => c == '4', fun c => isDigitCh c || c == 'A' || c == 'B']
    isBase58 93 93

/-- PATTERNS['ltc']. -/
def ltcPat : RunPattern :=
  RunPattern.mk [fun c => c == 'L' || c == 'M' || c == '3'] isBase58 26 33

/-- PATTERNS['md5']. -/
def md5Pat : RunPattern := RunPattern.mk [] isHexCh 32 32

/-- PATTERNS['sha1']. -/
def sha1Pat : RunPattern := RunPattern.mk [] isHexCh 40 40

/-- PATTERNS['sha256']. -/
def sha256Pat : RunPattern := RunPattern.mk [] isHexCh 64 64

/-! ## Entity records and the shared dedup loop (entity_extractor.py) -/

/-- EntityType members used by the modelled extractors. -/
inductive EntityType where
  | email
  | cryptoWallet
  | phone
  | domain
  | ipAddress
  | pgpKey
  | username
  | credential
  | hash
  | cve
deriving DecidableEq

/-- Per-type extraction confidences, as exact rationals. -/
def c085 : ℚ := ⟨17, 20, by norm_num, by norm_num⟩

/-- Confidence 0.8. -/
def c08 : ℚ := ⟨4, 5, by norm_num, by norm_num⟩

/-- Confidence 0.75. -/
def c075 : ℚ := ⟨3, 4, by norm_num, by norm_num⟩

/-- Confidence 0.7. -/
def c07 : ℚ := ⟨7, 10, by norm_num, by norm_num⟩

/-- One ExtractedEntity as produced by the extractors modelled here. -/
structure Entity where
  etype : EntityType
  value : List Char
  confidence : ℚ
  currency : Option String
  hashTag : Option String
deriving DecidableEq

/-- Python value.lower() on a char list (ASCII inputs). -/
def lowerList (v : List Char) : List Char := v.map Char.toLower

/-- EntityExtractor._should_add: returns whether to keep the value and the
updated seen-set (the set stores value.lower() and is shared by every
extractor within one extract invocation). -/
def shouldAdd (seen : List (List Char)) (v : List Char) : Bool × List (List Char) :=
  if lowerList v ∈ seen then (false, seen) else (true, lowerList v :: seen)

/-- One candidate match: the entity an extractor would emit, together with
the string it passes to _should_add. -/
structure Cand where
  ent : Entity
  key : List Char
deriving DecidableEq

/-- The per-match loop shared by the extractors: emit each candidate whose
key passes _should_add, threading the seen-set. -/
def processCands : List Cand → List (List Char) → List Cand × List (List Char)
  | [], seen => ([], seen)
  | c :: cs, seen =>
    let sa := shouldAdd seen c.key
    if sa.1 then
      let rest := processCands cs sa.2
      (c :: rest.1, rest.2)
    else
      processCands cs sa.2

/-- Candidates of _extract_crypto_wallets, in source order of the
(pattern, currency) list and of finditer. -/
def cryptoCands (text : List Char) : List Cand :=
  ((finditer btcLegacyPat text).map (fun m =>
    Cand.mk (Entity.mk .cryptoWallet (sliceAt text m.1 m.2) c085 (some "BTC") none)
      (sliceAt text m.1 m.2))) ++
  ((finditer btcSegwitPat text).map (fun m =>
    Cand.mk (Entity.mk .cryptoWallet (sliceAt text m.1 m.2) c085 (some "BTC") none)
      (sliceAt text m.1 m.2))) ++
  ((finditer ethPat text).map (fun m =>
    Cand.mk (Entity.mk .cryptoWallet (sliceAt text m.1 m.2) c085 (some "ETH") none)
      (sliceAt text m.1 m.2))) ++
  ((finditer xmrPat text).map (fun m =>
    Cand.mk (Entity.mk .cryptoWallet (sliceAt text m.1 m.2) c085 (some "XMR") none)
      (sliceAt text m.1 m.2))) ++
  ((finditer ltcPat text).map (fun m =>
    Cand.mk (Entity.mk .cryptoWallet (sliceAt text m.1 m.2) c085 (some "LTC") none)
      (sliceAt text m.1 m.2)))

/-- EntityExtractor._extract_crypto_wallets given the seen-set state at the
point the crypto pass runs. -/
def extractCryptoWallets (text : List Char) (seen : List (List Char)) : List Entity :=
  (processCands (cryptoCands text) seen).1.map Cand.ent

/-- Candidates of _extract_hashes: SHA256 first, then SHA1, then MD5; the
emitted value is the lowercased match and doubles as the dedup key. -/
def hashCands (text : List Char) : List Cand :=
  ((finditer sha256Pat text).map (fun m =>
    Cand.mk (Entity.mk .hash (lowerList (sliceAt text m.1 m.2)) c08 none (some "SHA256"))
      (lowerList (sliceAt text m.1 m.2)))) ++
  ((finditer sha1Pat text).map (fun m =>
    Cand.mk (Entity.mk .hash (lowerList (sliceAt text m.1 m.2)) c075 none (some "SHA1"))
      (lowerList (sliceAt text m.1 m.2)))) ++
  ((finditer md5Pat text).map (fun m =>
    Cand.mk (Entity.mk .hash (lowerList (sliceAt text m.1 m.2)) c07 none (some "MD5"))
      (lowerList (sliceAt text m.1 m.2))))

/-- EntityExtractor._extract_hashes given the seen-set state at the point the
hash pass runs. -/
def extractHashes (text : List Char) (seen : List (List Char)) : List Entity :=
  (processCands (hashCands text) seen).1.map Cand.ent

/-- STIXExporter._detect_hash_type: hash type from value length alone. -/
def stixDetectHashType (v : List Char) : String :=
  if v.length = 32 then "MD5"
  else if v.length = 40 then "SHA-1"
  else if v.length = 64 then "SHA-256"
  else if v.length = 128 then "SHA-512"
  else "unknown"

/-! ## Theorems for claims C5 and C9 -/

/-- C5 counterexample: _detect_currency tags an address matching no family
with the uppercase string "UNKNOWN", not the claimed "unknown". -/
theorem c5_counterexample :
    detectCurrency "zzzz".data = "UNKNOWN" ∧ ("UNKNOWN" : String) ≠ "unknown" ∧
    btcLegacyShape "zzzz".data = false ∧ btcSegwitShape "zzzz".data = false ∧
    ethShape "zzzz".data = false ∧ xmrShape "zzzz".data = false ∧
    ltcShape "zzzz".data = false ∧ bchShape "zzzz".data = false ∧
    dashShape "zzzz".data = false := by
  decide

/-- C5 amended: wallet currency is a pure function of the address shape via
the seven anchored regex families, an address matching no family is tagged
"UNKNOWN" (uppercase) rather than discarded, and scenario B holds: a text
consisting of 1BvBMSEYstWetqTFn5Au4m4GFg7xJaNVN2 yields exactly one
crypto-wallet entity with currency "BTC" and confidence 0.85. -/
theorem c5_currency_amended :
    (∀ v, detectCurrency v = "UNKNOWN" ↔
      (btcLegacyShape v = false ∧ btcSegwitShape v = false ∧ ethShape v = false ∧
       xmrShape v = false ∧ ltcShape v = false ∧ bchShape v = false ∧
       dashShape v = false)) ∧
    extractCryptoWallets "1BvBMSEYstWetqTFn5Au4m4GFg7xJaNVN2".data [] =
      [Entity.mk EntityType.cryptoWallet "1BvBMSEYstWetqTFn5Au4m4GFg7xJaNVN2".data
        c085 (some "BTC") none] ∧
    c085 = 85/100 ∧
    detectCurrency "1BvBMSEYstWetqTFn5Au4m4GFg7xJaNVN2".data = "BTC" := by
  refine ⟨?_, by decide, ?_, by decide⟩
  · intro v
    unfold detectCurrency
    split_ifs with h1 h2 h3 h4 h5 h6 h7 <;> simp_all
  · unfold c085
    rw [Rat.mk'_eq_divInt]
    norm_num [Rat.divInt_eq_div]

/-- C9 counterexample: two distinct Bitcoin addresses differing only in
letter case are collapsed to one entity within a single crypto pass, so the
dedup comparison is not case-sensitive for wallet addresses. -/
theorem c9_counterexample :
    extractCryptoWallets
      "1BvBMSEYstWetqTFn5Au4m4GFg7xJaNVN2 1BVBMSEYstWetqTFn5Au4m4GFg7xJaNVN2".data
      [] =
      [Entity.mk EntityType.cryptoWallet "1BvBMSEYstWetqTFn5Au4m4GFg7xJaNVN2".data
        c085 (some "BTC") none] ∧
    "1BvBMSEYstWetqTFn5Au4m4GFg7xJaNVN2".data ≠
      "1BVBMSEYstWetqTFn5Au4m4GFg7xJaNVN2".data ∧
    lowerList "1BvBMSEYstWetqTFn5Au4m4GFg7xJaNVN2".data =
      lowerList "1BVBMSEYstWetqTFn5Au4m4GFg7xJaNVN2".data ∧
    btcLegacyShape "1BvBMSEYstWetqTFn5Au4m4GFg7xJaNVN2".data = true ∧
    btcLegacyShape "1BVBMSEYstWetqTFn5Au4m4GFg7xJaNVN2".data = true := by
  decide

theorem processCands_sound (cands : List Cand) (seen : List (List Char)) :
    (∀ c ∈ (processCands cands seen).1, c ∈ cands ∧ lowerList c.key ∉ seen) ∧
    ((processCands cands seen).1.map (fun c => lowerList c.key)).Nodup ∧
    (∀ c ∈ cands, lowerList c.key ∉ seen →
      ∃ c' ∈ (processCands cands seen).1, lowerList c'.key = lowerList c.key) := by
  induction cands generalizing seen with
  | nil => simp [processCands]
  | cons c cs ih =>
    by_cases hin : lowerList c.key ∈ seen
    · have heq : processCands (c :: cs) seen = processCands cs seen := by
        simp [processCands, shouldAdd, hin]
      rw [heq]
      obtain ⟨iha, ihb, ihc⟩ := ih seen
      refine ⟨?_, ihb, ?_⟩
      · intro d hd
        obtain ⟨hmem, hnotin⟩ := iha d hd
        exact ⟨List.mem_cons_of_mem _ hmem, hnotin⟩
      · intro d hd hnotin
        rcases List.mem_cons.mp hd with rfl | hd'
        · exact absurd hin hnotin
        · exact ihc d hd' hnotin
    · have heq : processCands (c :: cs) seen =
          (c :: (processCands cs (lowerList c.key :: seen)).1,
           (processCands cs (lowerList c.key :: seen)).2) := by
        simp [processCands, shouldAdd, hin]
      rw [heq]
      obtain ⟨iha, ihb, ihc⟩ := ih (lowerList c.key :: seen)
      refine ⟨?_, ?_, ?_⟩
      · intro d hd
        rcases List.mem_cons.mp hd with rfl | hd'
        · exact ⟨List.mem_cons_self _ _, hin⟩
        · obtain ⟨hmem, hnotin⟩ := iha d hd'
          exact ⟨List.mem_cons_of_mem _ hmem,
            fun hs => hnotin (List.mem_cons_of_mem _ hs)⟩
      · simp only [List.map_cons, List.nodup_cons]
        refine ⟨?_, ihb⟩
        intro hcontra
        obtain ⟨d, hd, hkey⟩ := List.mem_map.mp hcontra
        exact (iha d hd).2 (hkey ▸ List.mem_cons_self _ _)
      · intro d hd hnotin
        rcases List.mem_cons.mp hd with rfl | hd'
        · exact ⟨d, List.mem_cons_self _ _, rfl⟩
        · by_cases hsame : lowerList d.key = lowerList c.key
          · exact ⟨c, List.mem_cons_self _ _, hsame.symm⟩
          · have hnotin' : lowerList d.key ∉ lowerList c.key :: seen := by
              intro hmem
              rcases List.mem_cons.mp hmem with h | h
              · exact hsame h
              · exact hnotin h
            obtain ⟨c', hc', hk⟩ := ihc d hd' hnotin'
            exact ⟨c', List.mem_cons_of_mem _ hc', hk⟩

/-- C9 amended: within one extract invocation (a fresh seen-set), the dedup
identity is the lowercased key alone, held in a single set shared by every
extractor pass: no two emitted candidates share a lowercased key (so
comparison is case-insensitive for every type, wallet addresses included, and
two candidates of different entity types with equal lowercased keys also
collapse), every emitted candidate comes from the stream, and every candidate
key is represented by some emitted candidate. -/
theorem c9_dedup_amended (cands : List Cand) :
    ((processCands cands []).1.map (fun c => lowerList c.key)).Nodup ∧
    (∀ c ∈ (processCands cands []).1, c ∈ cands) ∧
    (∀ c ∈ cands, ∃ c' ∈ (processCands cands []).1,
      lowerList c'.key = lowerList c.key) := by
  obtain ⟨ha, hb, hc⟩ := processCands_sound cands []
  exact ⟨hb, fun c hcm => (ha c hcm).1,
    fun c hcm => hc c hcm (List.not_mem_nil _)⟩

/-- Candidate stream used to witness C9 amended: an email and a wallet whose
values agree up to case. -/
def c9cands : List Cand :=
  [Cand.mk (Entity.mk EntityType.email "AbC".data c085 none none) "AbC".data,
   Cand.mk (Entity.mk EntityType.cryptoWallet "aBc".data c085 none none) "aBc".data]

/-- Witness for C9 amended on the concrete candidate stream. -/
theorem c9_dedup_amended_witness :
    ((processCands c9cands []).1.map (fun c => lowerList c.key)).Nodup ∧
    (Cand.mk (Entity.mk EntityType.email "AbC".data c085 none none) "AbC".data ∈
      (processCands c9cands []).1) ∧
    (Cand.mk (Entity.mk EntityType.email "AbC".data c085 none none) "AbC".data ∈
      c9cands) ∧
    (∃ c' ∈ (processCands c9cands []).1,
      lowerList c'.key = lowerList (Cand.mk (Entity.mk EntityType.cryptoWallet
        "aBc".data c085 none none) "aBc".data).key) :=
  ⟨(c9_dedup_amended c9cands).1, by decide,
   (c9_dedup_amended c9cands).2.1 _ (by decide),
   (c9_dedup_amended c9cands).2.2 _ (by decide)⟩

/-! ## Theorems for claim C4 -/

theorem takeWhile_of_all (p : Char → Bool) :
    ∀ l : List Char, (∀ c ∈ l, p c = true) → l.takeWhile p = l := by
  intro l h
  induction l with
  | nil => rfl
  | cons c cs ih =>
    have hc := h c (List.mem_cons_self _ _)
    have ihh := ih (fun d hd => h d (List.mem_cons_of_mem _ hd))
    simp [List.takeWhile_cons, hc, ihh]

theorem hexIsWord (c : Char) (h : isHexCh c = true) : isWordCh c = true := by
  simp only [isHexCh, isDigitCh, Bool.or_eq_true, Bool.and_eq_true,
    decide_eq_true_eq] at h
  simp only [isWordCh, isAlnumCh, isDigitCh, isLowerCh, isUpperCh,
    Bool.or_eq_true, Bool.and_eq_true, decide_eq_true_eq]
  rcases h with (⟨h1, h2⟩ | ⟨h1, h2⟩) | ⟨h1, h2⟩
  · exact Or.inl (Or.inl (Or.inl ⟨h1, h2⟩))
  · exact Or.inl (Or.inl (Or.inr ⟨h1, le_trans h2 (by decide)⟩))
  · exact Or.inl (Or.inr ⟨h1, le_trans h2 (by decide)⟩)

theorem hexMatchAtZero (n : Nat) (t : List Char)
    (hall : ∀ c ∈ t, isHexCh c = true) :
    matchAt (RunPattern.mk [] isHexCh n n) t 0 =
      if t.length = n then some n else none := by
  have htw : t.takeWhile isHexCh = t := takeWhile_of_all isHexCh t hall
  simp only [matchAt, matchHeads, List.drop_zero, htw, List.drop_length]
  by_cases hlen : t.length = n
  · subst hlen
    rw [if_pos ⟨Or.inl trivial, le_refl _, le_refl _, Or.inl trivial⟩, if_pos rfl]
    simp
  · rw [if_neg, if_neg hlen]
    rintro ⟨-, h1, h2, -⟩
    exact hlen (le_antisymm h2 h1)

theorem hexMatchAtPos (n : Nat) (hn : 1 ≤ n) (t : List Char)
    (hall : ∀ c ∈ t, isWordCh c = true) (i : Nat) (hi : 1 ≤ i) :
    matchAt (RunPattern.mk [] isHexCh n n) t i = none := by
  by_cases hlt : i - 1 < t.length
  · have hmem : t.getD (i - 1) ' ' ∈ t := by
      rw [List.getD_eq_getElem t ' ' hlt]
      exact List.getElem_mem hlt
    have hw : isWordCh (t.getD (i - 1) ' ') = true := hall _ hmem
    simp only [matchAt, matchHeads]
    rw [if_neg]
    rintro ⟨hleft, -, -, -⟩
    rcases hleft with h0 | hcw
    · omega
    · rw [hw] at hcw
      exact Bool.noConfusion hcw
  · have hdrop : t.drop i = [] := List.drop_eq_nil_of_le (by omega)
    simp only [matchAt, matchHeads, hdrop, List.takeWhile_nil]
    rw [if_neg]
    rintro ⟨-, h1, -, -⟩
    simp only [List.length_nil] at h1
    omega

theorem scanFromNone (pat : RunPattern) (t : List Char) (i0 : Nat)
    (h : ∀ j, i0 ≤ j → matchAt pat t j = none) :
    ∀ fuel i, i0 ≤ i → scanFrom pat t fuel i = [] := by
  intro fuel
  induction fuel with
  | zero => intro i _; rfl
  | succ f ih =>
    intro i hi
    simp only [scanFrom, h i hi]
    split
    · exact ih (i + 1) (by omega)
    · rfl

theorem hexFinditer (n : Nat) (hn : 1 ≤ n) (t : List Char) (hne : t ≠ [])
    (hall : ∀ c ∈ t, isHexCh c = true) :
    finditer (RunPattern.mk [] isHexCh n n) t =
      if t.length = n then [(0, n)] else [] := by
  have hword : ∀ c ∈ t, isWordCh c = true := fun c hc => hexIsWord c (hall c hc)
  have hlen0 : 0 < t.length := List.length_pos.mpr hne
  have hnone : ∀ j, 1 ≤ j → matchAt (RunPattern.mk [] isHexCh n n) t j = none :=
    fun j hj => hexMatchAtPos n hn t hword j hj
  unfold finditer
  by_cases hlen : t.length = n
  · rw [if_pos hlen]
    have h0 : matchAt (RunPattern.mk [] isHexCh n n) t 0 = some n := by
      rw [hexMatchAtZero n t hall, if_pos hlen]
    simp only [scanFrom, if_pos hlen0, h0]
    rw [scanFromNone _ t 1 hnone _ _ (by omega)]
  · rw [if_neg hlen]
    have h0 : matchAt (RunPattern.mk [] isHexCh n n) t 0 = none := by
      rw [hexMatchAtZero n t hall, if_neg hlen]
    simp only [scanFrom, if_pos hlen0, h0]
    exact scanFromNone _ t 1 hnone _ _ (by omega)

set_option maxRecDepth 40000 in
/-- C4 counterexample: a 128-character hex string is typed "SHA-512" at the
STIX boundary but yields no hash entity at all in the extraction stage, and
a 40-character hex string is tagged "SHA1" by extraction but "SHA-1" by the
export table, so the two tables are not identical. -/
theorem c4_counterexample :
    stixDetectHashType (List.replicate 128 'a') = "SHA-512" ∧
    extractHashes (List.replicate 128 'a') [] = [] ∧
    (extractHashes "aaaaaaaaaaaaaaaaaaaaaaaaaaaaaaaaaaaaaaaa".data []).map
      (fun e => e.hashTag) = [some "SHA1"] ∧
    stixDetectHashType "aaaaaaaaaaaaaaaaaaaaaaaaaaaaaaaaaaaaaaaa".data = "SHA-1" ∧
    ("SHA1" : String) ≠ "SHA-1" := by
  decide

/-- C4 amended: the STIX-export hash typing is a pure function of length with
table 32→"MD5", 40→"SHA-1", 64→"SHA-256", 128→"SHA-512", else "unknown"; the
extraction stage recognizes only standalone hex words of lengths 64/40/32,
tagging them "SHA256"/"SHA1"/"MD5" (no hyphen), and emits no hash entity for
a hex word of any other length, 128 included — the two tables agree only on
which lengths map to the MD5/SHA-1/SHA-256 families. -/
theorem c4_hash_tables_amended :
    (∀ v w : List Char, v.length = w.length →
      stixDetectHashType v = stixDetectHashType w) ∧
    (∀ v : List Char,
      (v.length = 32 → stixDetectHashType v = "MD5") ∧
      (v.length = 40 → stixDetectHashType v = "SHA-1") ∧
      (v.length = 64 → stixDetectHashType v = "SHA-256") ∧
      (v.length = 128 → stixDetectHashType v = "SHA-512") ∧
      (v.length ≠ 32 → v.length ≠ 40 → v.length ≠ 64 → v.length ≠ 128 →
        stixDetectHashType v = "unknown")) ∧
    (∀ t : List Char, t ≠ [] → (∀ c ∈ t, isHexCh c = true) →
      (extractHashes t []).map (fun e => e.hashTag) =
        (if t.length = 64 then [some "SHA256"]
         else if t.length = 40 then [some "SHA1"]
         else if t.length = 32 then [some "MD5"]
         else [])) := by
  refine ⟨?_, ?_, ?_⟩
  · intro v w h
    unfold stixDetectHashType
    rw [h]
  · intro v
    unfold stixDetectHashType
    refine ⟨fun h => by rw [if_pos h], fun h => ?_, fun h => ?_, fun h => ?_,
      fun h1 h2 h3 h4 => ?_⟩
    · rw [if_neg (by omega), if_pos h]
    · rw [if_neg (by omega), if_neg (by omega), if_pos h]
    · rw [if_neg (by omega), if_neg (by omega), if_neg (by omega), if_pos h]
    · rw [if_neg h1, if_neg h2, if_neg h3, if_neg h4]
  · intro t hne hall
    have h256 := hexFinditer 64 (by norm_num) t hne hall
    have h160 := hexFinditer 40 (by norm_num) t hne hall
    have h128 := hexFinditer 32 (by norm_num) t hne hall
    by_cases h64 : t.length = 64
    · have e256 : finditer sha256Pat t = [(0, 64)] := by
        unfold sha256Pat
        rw [h256, if_pos h64]
      have e40 : finditer sha1Pat t = [] := by
        unfold sha1Pat
        rw [h160, if_neg (by omega)]
      have e32 : finditer md5Pat t = [] := by
        unfold md5Pat
        rw [h128, if_neg (by omega)]
      simp [extractHashes, hashCands, e256, e40, e32, processCands, shouldAdd, h64]
    · by_cases h40 : t.length = 40
      · have e256 : finditer sha256Pat t = [] := by
          unfold sha256Pat
          rw [h256, if_neg (by omega)]
        have e40 : finditer sha1Pat t = [(0, 40)] := by
          unfold sha1Pat
          rw [h160, if_pos h40]
        have e32 : finditer md5Pat t = [] := by
          unfold md5Pat
          rw [h128, if_neg (by omega)]
        simp [extractHashes, hashCands, e256, e40, e32, processCands, shouldAdd,
          h64, h40]
      · by_cases h32 : t.length = 32
        · have e256 : finditer sha256Pat t = [] := by
            unfold sha256Pat
            rw [h256, if_neg (by omega)]
          have e40 : finditer sha1Pat t = [] := by
            unfold sha1Pat
            rw [h160, if_neg (by omega)]
          have e32 : finditer md5Pat t = [(0, 32)] := by
            unfold md5Pat
            rw [h128, if_pos h32]
          simp [extractHashes, hashCands, e256, e40, e32, processCands, shouldAdd,
            h64, h40, h32]
        · have e256 : finditer sha256Pat t = [] := by
            unfold sha256Pat
            rw [h256, if_neg (by omega)]
          have e40 : finditer sha1Pat t = [] := by
            unfold sha1Pat
            rw [h160, if_neg (by omega)]
          have e32 : finditer md5Pat t = [] := by
            unfold md5Pat
            rw [h128, if_neg (by omega)]
          simp [extractHashes, hashCands, e256, e40, e32, processCands, shouldAdd,
            h64, h40, h32]

/-- Witness for C4 amended: length-2 inputs for the pure-length fact, the MD5
row of the export table, and scenario C's 32-hex string for extraction. -/
theorem c4_hash_tables_amended_witness :
    stixDetectHashType "ab".data = stixDetectHashType "cd".data ∧
    ("d41d8cd98f00b204e9800998ecf8427e".data.length = 32 →
      stixDetectHashType "d41d8cd98f00b204e9800998ecf8427e".data = "MD5") ∧
    ("d41d8cd98f00b204e9800998ecf8427e".data ≠ [] ∧
     (∀ c ∈ "d41d8cd98f00b204e9800998ecf8427e".data, isHexCh c = true)) ∧
    ((extractHashes "d41d8cd98f00b204e9800998ecf8427e".data []).map
      (fun e => e.hashTag) =
      (if "d41d8cd98f00b204e9800998ecf8427e".data.length = 64 then [some "SHA256"]
       else if "d41d8cd98f00b204e9800998ecf8427e".data.length = 40 then [some "SHA1"]
       else if "d41d8cd98f00b204e9800998ecf8427e".data.length = 32 then [some "MD5"]
       else [])) :=
  ⟨c4_hash_tables_amended.1 "ab".data "cd".data (by decide),
   (c4_hash_tables_amended.2.1 "d41d8cd98f00b204e9800998ecf8427e".data).1,
   ⟨by decide, by decide⟩,
   c4_hash_tables_amended.2.2 "d41d8cd98f00b204e9800998ecf8427e".data
     (by decide) (by decide)⟩

/-! ## Result filtering (result_filter.py) -/

/-- Numeric value of an ASCII digit. -/
def digitVal (c : Char) : Nat := c.toNat - '0'.toNat

/-- re.findall of digit runs, each parsed by int(): accumulator carries the
run being read. -/
def digitRunsAux : List Char → Option Nat → List Nat
  | [], none => []
  | [], some n => [n]
  | c :: cs, acc =>
    if isDigitCh c then
      digitRunsAux cs (some ((acc.getD 0) * 10 + digitVal c))
    else
      match acc with
      | none => digitRunsAux cs none
      | some n => n :: digitRunsAux cs none

/-- All numbers appearing in the LLM response. -/
def digitRuns (s : List Char) : List Nat := digitRunsAux s none

/-- ResultFilter._parse_indices: keep numbers in [1, maxIndex] without
duplicates, stopping once max_results are collected. -/
def parseIndicesAux : List Nat → Nat → Nat → List Nat → List Nat
  | [], _, _, acc => acc
  | n :: ns, maxIndex, maxRes, acc =>
    if 1 ≤ n ∧ n ≤ maxIndex ∧ n ∉ acc then
      if maxRes ≤ (acc ++ [n]).length then acc ++ [n]
      else parseIndicesAux ns maxIndex maxRes (acc ++ [n])
    else parseIndicesAux ns maxIndex maxRes acc

/-- ResultFilter._parse_indices on a response string. -/
def parseIndices (s : List Char) (maxIndex maxRes : Nat) : List Nat :=
  parseIndicesAux (digitRuns s) maxIndex maxRes []

/-- ResultFilter.filter with the LLM call abstracted to its outcome: an empty
input short-circuits to []; the try/except falls back to the first
max_results results on any LLM error; otherwise the parsed 1-based indices
select results (the prompt formatting only feeds the LLM and is absorbed
into the oracle). -/
def filterResults (results : List SR) (llm : Except String String)
    (maxRes : Nat) : List SR :=
  if results = [] then []
  else
    match llm with
    | .error _ => results.take maxRes
    | .ok s =>
      (parseIndices s.data results.length maxRes).filterMap
        (fun i =>
          if h : 0 < i ∧ i ≤ results.length then
            some (results.get ⟨i - 1, by omega⟩)
          else none)

/-! ## Content scraping (investigation_service._scrape_content) -/

/-- What scrape_single observes for one URL: a 200 response with its
extracted page text, or anything else (non-200 status or a raised
exception). -/
inductive FetchOutcome where
  | success (text : List Char)
  | failure

/-- scrape_single: a successful fetch yields title + " " + text truncated to
max_content_chars; every other outcome yields the pair (url, title). -/
def scrapeSingle (r : SR) (fetch : String → FetchOutcome) (maxChars : Nat) :
    String × List Char :=
  match fetch r.link with
  | .success text => (r.link, (r.title.data ++ ' ' :: text).take maxChars)
  | .failure => (r.link, r.title.data)

/-- Python dict assignment d[k] = v on an association list. -/
def dictInsert (m : List (String × List Char)) (k : String) (v : List Char) :
    List (String × List Char) :=
  if m.any (fun p => p.1 == k) then
    m.map (fun p => if p.1 == k then (k, v) else p)
  else m ++ [(k, v)]

/-- _scrape_content: store each task's content under its URL when the content
is non-empty (the tasks complete in an unspecified order; under distinct
links the resulting per-URL lookups do not depend on it, so list order
stands in for completion order). -/
def scrapeContent (results : List SR) (fetch : String → FetchOutcome)
    (maxChars : Nat) : List (String × List Char) :=
  results.foldl
    (fun m r =>
      let p := scrapeSingle r fetch maxChars
      if p.2 ≠ [] then dictInsert m p.1 p.2 else m) []

/-! ## The investigate pipeline (investigation_service.investigate) -/

/-- Outcomes of the external calls, plus the threat score, whose computation
is deterministic in-repo code already modelled above and irrelevant to the
control-flow claims: it is abstracted as an arbitrary value, so the theorems
below hold for every valuation of it, the real one included. -/
structure Oracle where
  refine : Except String String
  engines : List EngineOutcome
  filterLLM : Except String String
  fetch : String → FetchOutcome
  summarize : Except String String
  threatScoreOut : ℚ

/-- InvestigationService.investigate under default configuration (entity
extraction and threat analysis enabled, max_filtered 20, max_content 1200,
no storage): drives the stage sequence, records {stage, message} on the
first uncaught error, marks FAILED, and re-raises; timestamps are ticks.
Progress callbacks are advisory only and not modelled. -/
def investigate (o : Oracle) : Investigation × Except String Unit :=
  let inv0 := Investigation.mk InvStatus.pending 0 none none 0 0 0 none none []
  let inv1 := updateStatus inv0 InvStatus.refiningQuery 1
  match o.refine with
  | .error e =>
    (updateStatus (addError inv1 (statusValue inv1.status) e) InvStatus.failed 2,
     Except.error e)
  | .ok rq =>
    let inv2 := { inv1 with refinedQuery := some rq }
    let inv3 := updateStatus inv2 InvStatus.searching 2
    let sr := mergeResults o.engines
    let inv4 := { inv3 with searchResultsCount := sr.length }
    let inv5 := updateStatus inv4 InvStatus.filtering 3
    let fr := filterResults sr o.filterLLM 20
    let inv6 := { inv5 with filteredResultsCount := fr.length }
    let inv7 := updateStatus inv6 InvStatus.scraping 4
    let sc := scrapeContent fr o.fetch 1200
    let inv8 := { inv7 with scrapedCount := sc.length }
    let inv9 := updateStatus inv8 InvStatus.extracting 5
    let inv10 := updateStatus inv9 InvStatus.analyzing 6
    let inv11 := { inv10 with threatScore := some o.threatScoreOut }
    match o.summarize with
    | .error e =>
      (updateStatus (addError inv11 (statusValue inv11.status) e) InvStatus.failed 7,
       Except.error e)
    | .ok s =>
      let inv12 := { inv11 with summary := some s }
      (updateStatus inv12 InvStatus.completed 7, Except.ok ())

/-! ## Theorems for claim C2 -/

theorem collectResults_all_fail : ∀ es : List EngineOutcome,
    (∀ e ∈ es, e = EngineOutcome.fail) → collectResults es = [] := by
  have haux : ∀ es : List EngineOutcome, (∀ e ∈ es, e = EngineOutcome.fail) →
      ∀ acc : List SR,
        es.foldl
          (fun acc o =>
            match o with
            | .ok rs => acc ++ rs
            | .fail => acc) acc = acc := by
    intro es
    induction es with
    | nil => intro _ acc; rfl
    | cons e tl ih =>
      intro h acc
      have he : e = EngineOutcome.fail := h e (List.mem_cons_self _ _)
      subst he
      rw [List.foldl_cons]
      exact ih (fun d hd => h d (List.mem_cons_of_mem _ hd)) acc
  intro es h
  unfold collectResults
  exact haux es h []

deriving instance DecidableEq for Except

deriving instance DecidableEq for FetchOutcome

/-- Oracle for C2: every provider fails, the LLM calls succeed. -/
def c2oracle : Oracle :=
  Oracle.mk (Except.ok "refined") [EngineOutcome.fail, EngineOutcome.fail]
    (Except.ok "1,2") (fun _ => FetchOutcome.failure) (Except.ok "summary") 0

/-- C2 counterexample: with every registered provider failing, the search
stage raises nothing and records nothing; the investigation runs to
COMPLETED with an empty error list instead of ending FAILED with a
"searching" error. -/
theorem c2_counterexample :
    (investigate c2oracle).1.status = InvStatus.completed ∧
    (investigate c2oracle).1.status ≠ InvStatus.failed ∧
    (investigate c2oracle).1.errors = [] ∧
    (investigate c2oracle).2 = Except.ok () ∧
    (investigate c2oracle).1.searchResultsCount = 0 := by
  decide

/-- C2 amended: when every provider fails, _search_all_engines returns an
empty list and no error is recorded; the investigation does not fail during
SEARCHING, and provided the surrounding external calls (refinement,
summarization) succeed it completes with zero search results, an empty error
list, and no exception for the caller. -/
theorem c2_all_engines_fail_amended (o : Oracle) (rq s : String)
    (hrefine : o.refine = Except.ok rq)
    (hengines : ∀ e ∈ o.engines, e = EngineOutcome.fail)
    (hsumm : o.summarize = Except.ok s) :
    (investigate o).1.status = InvStatus.completed ∧
    (investigate o).1.errors = [] ∧
    (investigate o).1.searchResultsCount = 0 ∧
    (investigate o).2 = Except.ok () := by
  have hmerge : mergeResults o.engines = [] := by
    unfold mergeResults
    rw [collectResults_all_fail o.engines hengines]
    rfl
  have hfilter : filterResults (mergeResults o.engines) o.filterLLM 20 = [] := by
    rw [hmerge]
    rfl
  have hscrape : scrapeContent
      (filterResults (mergeResults o.engines) o.filterLLM 20) o.fetch 1200 = [] := by
    rw [hfilter]
    rfl
  simp only [investigate, hrefine, hsumm, hmerge, hfilter, hscrape]
  simp [updateStatus, addError]

/-- Witness for C2 amended at the concrete all-fail oracle. -/
theorem c2_all_engines_fail_amended_witness :
    (c2oracle.refine = Except.ok "refined" ∧
     (∀ e ∈ c2oracle.engines, e = EngineOutcome.fail) ∧
     c2oracle.summarize = Except.ok "summary") ∧
    ((investigate c2oracle).1.status = InvStatus.completed ∧
     (investigate c2oracle).1.errors = [] ∧
     (investigate c2oracle).1.searchResultsCount = 0 ∧
     (investigate c2oracle).2 = Except.ok ()) :=
  ⟨⟨rfl, by decide, rfl⟩,
   c2_all_engines_fail_amended c2oracle "refined" "summary" rfl (by decide) rfl⟩

/-! ## Theorems for claim C7 -/

/-- Oracle for C7's counterexample: a provider succeeds, the filter's LLM
call fails, refinement and summarization succeed. -/
def c7oracle : Oracle :=
  Oracle.mk (Except.ok "refined")
    [EngineOutcome.ok [SR.mk "http://a.onion" "t"]]
    (Except.error "llm down") (fun _ => FetchOutcome.failure)
    (Except.ok "summary") 0

/-- C7 counterexample: an LLM failure during result filtering is swallowed
inside ResultFilter.filter (fallback to the first max_results results), so
the investigation completes instead of failing — filtering failure is not
fatal. -/
theorem c7_counterexample :
    c7oracle.filterLLM = Except.error "llm down" ∧
    (investigate c7oracle).1.status = InvStatus.completed ∧
    (investigate c7oracle).1.status ≠ InvStatus.failed ∧
    (investigate c7oracle).1.errors = [] ∧
    (investigate c7oracle).2 = Except.ok () ∧
    (investigate c7oracle).1.filteredResultsCount = 1 := by
  decide

/-- C7 amended: a failure in query refinement or in summarization is fatal —
the Investigation is marked FAILED with a recorded {stage, message} entry for
the current status ("refining_query", resp. "analyzing", there being no
dedicated summarizing status) before the error propagates to the caller; a
failure of the LLM call inside result filtering is not fatal — it is caught
in the filter, which falls back to the first 20 search results, and the
investigation proceeds normally. -/
theorem c7_fatal_amended (o : Oracle) :
    (∀ e, o.refine = Except.error e →
      (investigate o).1.status = InvStatus.failed ∧
      (investigate o).1.errors = [ErrEntry.mk "refining_query" e] ∧
      (investigate o).1.completedAt ≠ none ∧
      (investigate o).2 = Except.error e) ∧
    (∀ rq e, o.refine = Except.ok rq → o.summarize = Except.error e →
      (investigate o).1.status = InvStatus.failed ∧
      (investigate o).1.errors = [ErrEntry.mk "analyzing" e] ∧
      (investigate o).1.completedAt ≠ none ∧
      (investigate o).2 = Except.error e) ∧
    (∀ rq s f, o.refine = Except.ok rq → o.summarize = Except.ok s →
      o.filterLLM = Except.error f →
      (investigate o).1.status = InvStatus.completed ∧
      (investigate o).1.errors = [] ∧
      (investigate o).2 = Except.ok () ∧
      (investigate o).1.filteredResultsCount =
        ((mergeResults o.engines).take 20).length) := by
  refine ⟨?_, ?_, ?_⟩
  · intro e hrefine
    simp only [investigate, hrefine]
    simp [updateStatus, addError, statusValue]
  · intro rq e hrefine hsumm
    simp only [investigate, hrefine, hsumm]
    simp [updateStatus, addError, statusValue]
  · intro rq s f hrefine hsumm hfl
    have hfilter : filterResults (mergeResults o.engines) o.filterLLM 20 =
        (mergeResults o.engines).take 20 := by
      unfold filterResults
      rw [hfl]
      by_cases hempty : mergeResults o.engines = []
      · rw [if_pos hempty, hempty]
        rfl
      · rw [if_neg hempty]
    simp only [investigate, hrefine, hsumm, hfilter]
    simp [updateStatus, addError]

/-- Oracle for the refinement-failure case of the C7 witness. -/
def c7oracleA : Oracle :=
  Oracle.mk (Except.error "rf") [] (Except.ok "") (fun _ => FetchOutcome.failure)
    (Except.ok "s") 0

/-- Oracle for the summarization-failure case of the C7 witness. -/
def c7oracleB : Oracle :=
  Oracle.mk (Except.ok "rq") [] (Except.ok "") (fun _ => FetchOutcome.failure)
    (Except.error "sm") 0

/-- Witness for C7 amended: concrete oracles exercising the fatal
refinement-failure and summarization-failure paths. -/
theorem c7_fatal_amended_witness :
    ((investigate c7oracleA).1.status = InvStatus.failed ∧
     (investigate c7oracleA).1.errors = [ErrEntry.mk "refining_query" "rf"] ∧
     (investigate c7oracleA).1.completedAt ≠ none ∧
     (investigate c7oracleA).2 = Except.error "rf") ∧
    ((investigate c7oracleB).1.status = InvStatus.failed ∧
     (investigate c7oracleB).1.errors = [ErrEntry.mk "analyzing" "sm"] ∧
     (investigate c7oracleB).1.completedAt ≠ none ∧
     (investigate c7oracleB).2 = Except.error "sm") :=
  ⟨(c7_fatal_amended c7oracleA).1 "rf" rfl,
   (c7_fatal_amended c7oracleB).2.1 "rq" "sm" rfl rfl⟩

/-! ## Theorems for claim C6 -/

/-- C6 counterexample: a URL whose fetch fails is not excluded from the
scraped mapping — it is mapped to its search-result title (and nothing about
the failure is recorded anywhere). -/
theorem c6_counterexample :
    scrapeContent [SR.mk "http://a.onion" "Title"]
      (fun _ => FetchOutcome.failure) 1200 =
      [("http://a.onion", "Title".data)] ∧
    (scrapeContent [SR.mk "http://a.onion" "Title"]
      (fun _ => FetchOutcome.failure) 1200).lookup "http://a.onion" =
      some "Title".data := by
  decide

theorem scrapeSingle_fst (r : SR) (fetch : String → FetchOutcome) (mc : Nat) :
    (scrapeSingle r fetch mc).1 = r.link := by
  unfold scrapeSingle
  cases fetch r.link <;> rfl

theorem lookup_none_of_not_key :
    ∀ (m : List (String × List Char)) (k : String),
      k ∉ m.map Prod.fst → m.lookup k = none := by
  intro m
  induction m with
  | nil => intro k _; rfl
  | cons p ps ih =>
    intro k h
    obtain ⟨k1, v1⟩ := p
    simp only [List.map_cons, List.mem_cons] at h
    push_neg at h
    have hkk : (k == k1) = false := by
      rw [beq_eq_false_iff_ne]
      exact h.1
    simp [List.lookup, hkk, ih k h.2]

theorem lookup_replaced :
    ∀ (m : List (String × List Char)) (k : String) (v : List Char),
      m.any (fun p => p.1 == k) = true →
      (m.map (fun p => if p.1 == k then (k, v) else p)).lookup k = some v := by
  intro m k v
  induction m with
  | nil => intro hany; simp at hany
  | cons p ps ih =>
    intro hany
    simp only [List.map_cons]
    by_cases hpk : (p.1 == k) = true
    · rw [if_pos hpk]
      simp [List.lookup]
    · rw [if_neg hpk]
      have hpk' : (p.1 == k) = false := Bool.not_eq_true _ |>.mp hpk
      have hany' : ps.any (fun p => p.1 == k) = true := by
        simp only [List.any_cons, hpk', Bool.false_or] at hany
        exact hany
      have hkp : (k == p.1) = false := by
        rw [beq_eq_false_iff_ne]
        intro hc
        rw [beq_eq_false_iff_ne] at hpk'
        exact hpk' hc.symm
      simp only [List.lookup, hkp]
      exact ih hany' 

theorem lookup_appended :
    ∀ (m : List (String × List Char)) (k : String) (v : List Char),
      m.any (fun p => p.1 == k) = false →
      (m ++ [(k, v)]).lookup k = some v := by
  intro m k v
  induction m with
  | nil => intro _; simp [List.lookup]
  | cons p ps ih =>
    intro hany
    simp only [List.any_cons, Bool.or_eq_false_iff] at hany
    have hkp : (k == p.1) = false := by
      rw [beq_eq_false_iff_ne]
      intro hc
      rw [beq_eq_false_iff_ne] at *
      exact hany.1 hc.symm
    rw [List.cons_append]
    simp only [List.lookup, hkp]
    exact ih (by simp [hany.2])

theorem dictInsert_lookup_self (m : List (String × List Char)) (k : String)
    (v : List Char) : (dictInsert m k v).lookup k = some v := by
  unfold dictInsert
  by_cases hany : m.any (fun p => p.1 == k) = true
  · rw [if_pos hany]
    exact lookup_replaced m k v hany
  · have hany' := Bool.not_eq_true _ |>.mp hany
    rw [if_neg (by rw [hany']; exact Bool.false_ne_true)]
    exact lookup_appended m k v hany'

theorem lookup_map_replace_ne :
    ∀ (m : List (String × List Char)) (k k' : String) (v : List Char), k' ≠ k →
      (m.map (fun p => if p.1 == k then (k, v) else p)).lookup k' =
        m.lookup k' := by
  intro m k k' v h
  induction m with
  | nil => rfl
  | cons p ps ih =>
    simp only [List.map_cons]
    by_cases hpk : (p.1 == k) = true
    · rw [if_pos hpk]
      have hp1 : p.1 = k := eq_of_beq hpk
      have hk'p : (k' == p.1) = false := by
        rw [beq_eq_false_iff_ne, hp1]
        exact h
      have hk'k : (k' == k) = false := by
        rw [beq_eq_false_iff_ne]
        exact h
      simp only [List.lookup, hk'k, hk'p]
      exact ih
    · rw [if_neg hpk]
      simp only [List.lookup]
      cases hkp : (k' == p.1) with
      | true => rfl
      | false => exact ih

theorem lookup_append_single_ne :
    ∀ (m : List (String × List Char)) (k k' : String) (v : List Char), k' ≠ k →
      (m ++ [(k, v)]).lookup k' = m.lookup k' := by
  intro m k k' v h
  induction m with
  | nil =>
    have hk'k : (k' == k) = false := by
      rw [beq_eq_false_iff_ne]
      exact h
    simp [List.lookup, hk'k]
  | cons p ps ih =>
    rw [List.cons_append]
    simp only [List.lookup]
    cases hkp : (k' == p.1) with
    | true => rfl
    | false => exact ih

theorem dictInsert_lookup_ne (m : List (String × List Char)) (k k' : String)
    (v : List Char) (h : k' ≠ k) :
    (dictInsert m k v).lookup k' = m.lookup k' := by
  unfold dictInsert
  split
  · exact lookup_map_replace_ne m k k' v h
  · exact lookup_append_single_ne m k k' v h

theorem dictInsert_keys (m : List (String × List Char)) (k k' : String)
    (v : List Char) (hne : k' ≠ k) (hnot : k' ∉ m.map Prod.fst) :
    k' ∉ (dictInsert m k v).map Prod.fst := by
  unfold dictInsert
  split
  · intro hc
    obtain ⟨p, hp, hfst⟩ := List.mem_map.mp hc
    obtain ⟨q, hq, hrepl⟩ := List.mem_map.mp hp
    by_cases hqk : (q.1 == k) = true
    · rw [if_pos hqk] at hrepl
      rw [← hrepl] at hfst
      exact hne hfst.symm
    · rw [if_neg hqk] at hrepl
      rw [← hrepl] at hfst
      exact hnot (hfst ▸ List.mem_map_of_mem Prod.fst hq)
  · intro hc
    rw [List.map_append] at hc
    rcases List.mem_append.mp hc with hc | hc
    · exact hnot hc
    · simp at hc
      exact hne hc

theorem scrapeFold_untouched (fetch : String → FetchOutcome) :
    ∀ (results : List SR) (m : List (String × List Char)) (k : String),
      k ∉ results.map SR.link →
      (results.foldl
        (fun m r =>
          let p := scrapeSingle r fetch 1200
          if p.2 ≠ [] then dictInsert m p.1 p.2 else m) m).lookup k =
        m.lookup k := by
  intro results
  induction results with
  | nil => intro m k _; rfl
  | cons r rest ih =>
    intro m k hk
    simp only [List.map_cons, List.mem_cons] at hk
    push_neg at hk
    rw [List.foldl_cons, ih _ k hk.2]
    dsimp only
    by_cases hc : (scrapeSingle r fetch 1200).2 ≠ []
    · rw [if_pos hc, scrapeSingle_fst r fetch 1200]
      exact dictInsert_lookup_ne m r.link k (scrapeSingle r fetch 1200).2 hk.1
    · rw [if_neg hc]

theorem scrapeFold_mem (fetch : String → FetchOutcome) :
    ∀ (results : List SR) (m : List (String × List Char)) (r : SR),
      r ∈ results → (results.map SR.link).Nodup → r.link ∉ m.map Prod.fst →
      (results.foldl
        (fun m r =>
          let p := scrapeSingle r fetch 1200
          if p.2 ≠ [] then dictInsert m p.1 p.2 else m) m).lookup r.link =
        (if (scrapeSingle r fetch 1200).2 ≠ []
         then some (scrapeSingle r fetch 1200).2 else none) := by
  intro results
  induction results with
  | nil => intro m r hr _ _; exact absurd hr (List.not_mem_nil r)
  | cons a rest ih =>
    intro m r hr hnodup hfresh
    simp only [List.map_cons, List.nodup_cons] at hnodup
    rw [List.foldl_cons]
    rcases List.mem_cons.mp hr with rfl | hr'
    · rw [scrapeFold_untouched fetch rest _ r.link hnodup.1]
      dsimp only
      by_cases hc : (scrapeSingle r fetch 1200).2 ≠ []
      · rw [if_pos hc, if_pos hc, scrapeSingle_fst r fetch 1200]
        exact dictInsert_lookup_self m r.link (scrapeSingle r fetch 1200).2
      · rw [if_neg hc, if_neg hc]
        exact lookup_none_of_not_key m r.link hfresh
    · have hne : a.link ≠ r.link := by
        intro hcontra
        exact hnodup.1 (hcontra ▸ List.mem_map_of_mem SR.link hr')
      have hfresh' : r.link ∉
          ((fun m r =>
            let p := scrapeSingle r fetch 1200
            if p.2 ≠ [] then dictInsert m p.1 p.2 else m) m a).map Prod.fst := by
        dsimp only
        by_cases hc : (scrapeSingle a fetch 1200).2 ≠ []
        · rw [if_pos hc]
          exact dictInsert_keys m (scrapeSingle a fetch 1200).1 r.link
            (scrapeSingle a fetch 1200).2
            (by rw [scrapeSingle_fst]; exact fun h => hne h.symm) hfresh
        · rw [if_neg hc]
          exact hfresh
      exact ih _ r hr' hnodup.2 hfresh'

/-- C6 amended: one URL's fetch failure never aborts the batch and nothing is
recorded for it; but a failed (or non-200) URL is not excluded from the
mapping — it is mapped to its search-result title whenever that title is
non-empty, and excluded only when the title is empty; a successfully fetched
URL maps to title + " " + page text truncated to max_content_chars (1200). -/
theorem c6_scrape_amended (results : List SR) (fetch : String → FetchOutcome)
    (hnodup : (results.map SR.link).Nodup) :
    ∀ r ∈ results,
      (∀ text, fetch r.link = FetchOutcome.success text →
        (scrapeContent results fetch 1200).lookup r.link =
          some ((r.title.data ++ ' ' :: text).take 1200)) ∧
      (fetch r.link = FetchOutcome.failure → r.title.data ≠ [] →
        (scrapeContent results fetch 1200).lookup r.link = some r.title.data) ∧
      (fetch r.link = FetchOutcome.failure → r.title.data = [] →
        (scrapeContent results fetch 1200).lookup r.link = none) := by
  intro r hr
  have hmain := scrapeFold_mem fetch results [] r hr hnodup (by simp)
  refine ⟨?_, ?_, ?_⟩
  · intro text hfetch
    have hsingle : scrapeSingle r fetch 1200 =
        (r.link, (r.title.data ++ ' ' :: text).take 1200) := by
      unfold scrapeSingle
      rw [hfetch]
    have hne : ((r.title.data ++ ' ' :: text).take 1200) ≠ [] := by
      intro hc
      rcases List.take_eq_nil_iff.mp hc with hc | hc
      · exact absurd hc (by norm_num)
      · rcases List.append_eq_nil.mp hc with ⟨-, hc2⟩
        exact List.cons_ne_nil _ _ hc2
    unfold scrapeContent
    rw [hmain, hsingle]
    simp [hne]
  · intro hfetch htitle
    have hsingle : scrapeSingle r fetch 1200 = (r.link, r.title.data) := by
      unfold scrapeSingle
      rw [hfetch]
    unfold scrapeContent
    rw [hmain, hsingle]
    simp [htitle]
  · intro hfetch htitle
    have hsingle : scrapeSingle r fetch 1200 = (r.link, r.title.data) := by
      unfold scrapeSingle
      rw [hfetch]
    unfold scrapeContent
    rw [hmain, hsingle]
    simp [htitle]

/-- Fetch oracle for the C6 witness: u1 succeeds, everything else fails. -/
def c6fetch : String → FetchOutcome :=
  fun link => if link == "u1" then FetchOutcome.success "body text".data
    else FetchOutcome.failure

/-- Result list for the C6 witness. -/
def c6results : List SR :=
  [SR.mk "u1" "T1", SR.mk "u2" "", SR.mk "u3" "T3"]

/-- Witness for C6 amended: a successful fetch, a failed fetch with empty
title (excluded), and a failed fetch with a title (included as the title). -/
theorem c6_scrape_amended_witness :
    ((c6results.map SR.link).Nodup ∧ SR.mk "u1" "T1" ∈ c6results ∧
      SR.mk "u2" "" ∈ c6results ∧ SR.mk "u3" "T3" ∈ c6results) ∧
    (scrapeContent c6results c6fetch 1200).lookup "u1" =
      some (("T1".data ++ ' ' :: "body text".data).take 1200) ∧
    (scrapeContent c6results c6fetch 1200).lookup "u2" = none ∧
    (scrapeContent c6results c6fetch 1200).lookup "u3" = some "T3".data :=
  ⟨⟨by decide, by decide, by decide, by decide⟩,
   (c6_scrape_amended c6results c6fetch (by decide) (SR.mk "u1" "T1")
     (by decide)).1 "body text".data (by decide),
   (c6_scrape_amended c6results c6fetch (by decide) (SR.mk "u2" "")
     (by decide)).2.2 (by decide) (by decide),
   (c6_scrape_amended c6results c6fetch (by decide) (SR.mk "u3" "T3")
     (by decide)).2.1 (by decide) (by decide)⟩
